import Mathlib

/-!
Verification development for the AutoBackup scheduler/copy engine
(src/main.rs of the auto_backup_rs_egui repository).

The Rust program is shallowly embedded as executable Lean definitions:

* strings are Lean `String`s, manipulated through their `data` character
  lists; the helpers below mirror the exact Rust primitives used by the
  program (`trim`, `trim_end`, `split(',')`, `split_whitespace`,
  `trim_start_matches`, `to_ascii_lowercase`, `eq_ignore_ascii_case`,
  integer `Display`/`FromStr`);
* wall-clock times (`chrono::NaiveDateTime`) are modelled as `Int`
  seconds; `chrono`'s `num_seconds` of a difference is exact on this
  whole-second model, and Rust `i64` division truncates toward zero,
  which is `Int.tdiv`;
* the filesystem seen by one backup run is a finite tree of entries
  (`Fsx`), where each file records whether `fs::copy` would succeed on
  it and each directory records whether `fs::create_dir_all` of its
  mirror and `fs::read_dir` of itself would succeed;
* messages sent over the mpsc channel are the inductive `AppMsg`-like
  event type `Ev`; the log text of an event is abstracted to a
  constructor tag (plus the payload that matters), and the wall-clock
  timestamp prefix that `AppState::log` adds to each line is elided;
* the egui controller state is `AppState` with the fields the claims
  touch; `save_data`/`load_data` work on the full character stream of
  the `AutoBackup.ini` file.
-/

/-- Rust `u8::to_ascii_lowercase` on a character: maps `A`..`Z` (code
points 65..90) to `a`..`z` and leaves every other character unchanged. -/
def lowerChar (c : Char) : Char :=
  if 65 ≤ c.toNat ∧ c.toNat ≤ 90 then Char.ofNat (c.toNat + 32) else c

/-- Rust `str::to_ascii_lowercase`. -/
def lowerStr (s : String) : String :=
  String.mk (s.data.map lowerChar)

/-- Rust `str::eq_ignore_ascii_case`. -/
def eqIgnoreAsciiCase (a b : String) : Bool :=
  a.data.map lowerChar == b.data.map lowerChar

/-- Rust `str::trim_end` on a character list (drops trailing whitespace). -/
def trimEndChars (cs : List Char) : List Char :=
  ((cs.reverse.dropWhile Char.isWhitespace)).reverse

/-- Rust `str::trim` on a character list (drops whitespace at both ends). -/
def trimChars (cs : List Char) : List Char :=
  trimEndChars (cs.dropWhile Char.isWhitespace)

/-- Rust `str::trim` as a `String` operation. -/
def strTrim (s : String) : String :=
  String.mk (trimChars s.data)

/-- Rust `str::split(sep)` for a single-character separator: splitting the
empty string yields one empty field, and every separator occurrence starts
a new field. -/
def splitOnChar (d : Char) : List Char → List (List Char)
  | [] => [[]]
  | c :: rest =>
    match splitOnChar d rest with
    | [] => [[]]
    | f :: fs => if c = d then [] :: f :: fs else (c :: f) :: fs

/-- Accumulator pass of `splitWs`; `acc` holds the current token reversed. -/
def splitWsAux : List Char → List Char → List (List Char)
  | [], acc => if acc.isEmpty then [] else [acc.reverse]
  | c :: rest, acc =>
    if c.isWhitespace then
      if acc.isEmpty then splitWsAux rest []
      else acc.reverse :: splitWsAux rest []
    else splitWsAux rest (c :: acc)

/-- Rust `str::split_whitespace`: maximal non-whitespace runs, no empty
tokens. -/
def splitWs (cs : List Char) : List (List Char) :=
  splitWsAux cs []

/-- Fuel-driven loop of `stripLeadingPat`; each successful strip removes
at least one character, so fuel equal to the input length always
suffices. -/
def stripLeadingPatAux (pat : List Char) : Nat → List Char → List Char
  | 0, cs => cs
  | fuel + 1, cs =>
    if pat ≠ [] ∧ cs.take pat.length = pat then
      stripLeadingPatAux pat fuel (cs.drop pat.length)
    else cs

/-- Rust `str::trim_start_matches(pat)` for a non-empty string pattern:
strips every successive occurrence of `pat` from the front. -/
def stripLeadingPat (pat : List Char) (cs : List Char) : List Char :=
  stripLeadingPatAux pat cs.length cs

/-- Value of a decimal digit character. -/
def charVal (c : Char) : Nat := c.toNat - 48

/-- Rust `char::is_ascii_digit`. -/
def isDigitCh (c : Char) : Bool := 48 ≤ c.toNat && c.toNat ≤ 57

/-- Numeric value of a most-significant-first digit string. -/
def digitsVal (cs : List Char) : Nat :=
  cs.foldl (fun a c => a * 10 + charVal c) 0

/-- Digit-run parser shared by the integer `FromStr` models: requires a
non-empty all-digit string. -/
def parseNatCore (cs : List Char) : Option Nat :=
  if cs ≠ [] ∧ cs.all isDigitCh then some (digitsVal cs) else none

/-- Rust `usize::from_str` (optional leading `+`, digits, overflow above
`usize::MAX` rejected). -/
def parseUsizeChars (cs : List Char) : Option Nat :=
  match cs with
  | [] => none
  | c :: rest =>
    if c = '+' then
      (parseNatCore rest).bind fun n => if n < 2 ^ 64 then some n else none
    else
      (parseNatCore (c :: rest)).bind fun n => if n < 2 ^ 64 then some n else none

/-- Rust `i32::from_str` (optional sign, digits, values outside the `i32`
range rejected). -/
def parseI32Chars (cs : List Char) : Option Int :=
  match cs with
  | [] => none
  | c :: rest =>
    if c = '-' then
      (parseNatCore rest).bind fun n =>
        if n ≤ 2 ^ 31 then some (-(n : Int)) else none
    else if c = '+' then
      (parseNatCore rest).bind fun n =>
        if n < 2 ^ 31 then some ((n : Int)) else none
    else
      (parseNatCore (c :: rest)).bind fun n =>
        if n < 2 ^ 31 then some ((n : Int)) else none

/-- Fuel-driven core of `natToChars`; the fuel bounds the number of
divisions by 10, so fuel `n` is always enough for value `n`. -/
def natToCharsAux : Nat → Nat → List Char
  | 0, _ => []
  | _ + 1, 0 => []
  | fuel + 1, n => natToCharsAux fuel (n / 10) ++ [Nat.digitChar (n % 10)]

/-- Decimal rendering of a `Nat`, as Rust `Display` prints it. -/
def natToChars (n : Nat) : List Char :=
  if n = 0 then ['0'] else natToCharsAux n n

/-- Decimal rendering of an `Int`, as Rust `Display` prints an `i32`. -/
def intToChars (i : Int) : List Char :=
  if i < 0 then '-' :: natToChars i.natAbs else natToChars i.toNat

/-- Rust `bool` `Display` output. -/
def boolChars (b : Bool) : List Char :=
  if b then "true".data else "false".data

/-- Rust `bool::from_str`: exactly `true` or `false`. -/
def parseBoolChars (cs : List Char) : Option Bool :=
  if cs = "true".data then some true
  else if cs = "false".data then some false
  else none

/-- Rust `parse_skip_tokens` (src/main.rs lines 659-669): splits the label
on whitespace, trims, drops empties, strips leading `*.` occurrences then
leading dots, and lowercases, so `*.log *.tmp` becomes `log`, `tmp`. -/
def parse_skip_tokens (label : String) : List String :=
  ((((splitWs label.data).map trimChars).filter
      (fun s => !s.isEmpty)).map
        (fun s => ((stripLeadingPat "*.".data s).dropWhile (· = '.')).map lowerChar)).map
    String.mk

/-- Folder skip tokens of `execute_backup` (src/main.rs lines 693-697):
the folder label split on whitespace and lowercased. -/
def parse_folder_tokens (label : String) : List String :=
  ((splitWs label.data).map (fun s => s.map lowerChar)).map String.mk

/-- Rust `Path::extension` on an ordinary directory-entry name: the part
after the last dot, or `none` when there is no dot or the only dot is the
leading character of a hidden file (names `.` and `..` never come out of
`read_dir`, so they are not special-cased). -/
def rust_extension (name : String) : Option String :=
  let rev := name.data.reverse
  let revExt := rev.takeWhile (· ≠ '.')
  if revExt.length = name.data.length then none
  else if revExt.length + 1 = name.data.length then none
  else some (String.mk revExt.reverse)

/-- File extension skip check of `copy_recursive` (src/main.rs lines
764-773): the lowercased extension, when non-empty, is compared for exact
equality against each skip token. -/
def file_skip_decision (name : String) (skip_exts : List String) : Bool :=
  let ext := lowerStr ((rust_extension name).getD "")
  !(ext == "") && skip_exts.any (fun e => e == ext)

/-- Folder-name skip check of `copy_recursive` (src/main.rs lines
757-761): case-insensitive match against the folder tokens. -/
def folder_skip_decision (name : String) (skip_folders : List String) : Bool :=
  skip_folders.any (fun f => eqIgnoreAsciiCase f name)

/-- Events an execution unit sends over the channel, one constructor per
`AppMsg::Log` call site of `execute_backup`/`copy_recursive` plus the
terminal `AppMsg::BackupFinished`; log text is abstracted to the tag and
the payload the claims need. -/
inductive Ev where
  | srcMissing : Ev
  | destCreateFailed : Ev
  | started : Ev
  | copyWarn (name : String) : Ev
  | copyFailed : Ev
  | zipOk : Ev
  | zipExitErr : Ev
  | zipLaunchErr : Ev
  | completed : Ev
  | finished (idx : Nat) (ok : Bool) : Ev
deriving DecidableEq

/-- One level of a source directory as an execution unit traverses it:
`file name copyOk rest` is a file entry (`copyOk` says whether `fs::copy`
succeeds on it) followed by its siblings, and `dir name mkOk rdOk children
rest` is a subdirectory (`mkOk`: creating the mirror directory succeeds;
`rdOk`: listing the source subdirectory succeeds). -/
inductive Fsx where
  | nil : Fsx
  | file (name : String) (copyOk : Bool) (rest : Fsx) : Fsx
  | dir (name : String) (mkOk rdOk : Bool) (children : Fsx) (rest : Fsx) : Fsx
deriving DecidableEq

/-- Result of the `fs::create_dir_all(dest)?` and `fs::read_dir(source)?`
prologue of `copy_recursive`: on failure the error propagates with no
events from this level. -/
def copyDirWrap (mkOk rdOk : Bool) (body : List Ev × Bool) : List Ev × Bool :=
  if mkOk then (if rdOk then body else ([], false)) else ([], false)

/-- Entry loop of `copy_recursive` (src/main.rs lines 747-785): directories
matching a skip folder are not descended into, a failing recursive call
aborts the loop with the error, files matching a skip extension are
skipped, and a failing `fs::copy` only emits a warning event and the loop
continues. -/
def copy_entries (exts folders : List String) : Fsx → List Ev × Bool
  | .nil => ([], true)
  | .file n copyOk rest =>
    if file_skip_decision n exts then copy_entries exts folders rest
    else if copyOk then copy_entries exts folders rest
    else
      let r := copy_entries exts folders rest
      (Ev.copyWarn n :: r.1, r.2)
  | .dir n mkOk rdOk children rest =>
    if folder_skip_decision n folders then copy_entries exts folders rest
    else
      let sub := copyDirWrap mkOk rdOk (copy_entries exts folders children)
      if sub.2 then
        let r := copy_entries exts folders rest
        (sub.1 ++ r.1, r.2)
      else sub

/-- Rust `copy_recursive` (src/main.rs lines 737-786) for one source
directory whose mirror-creation and listing outcomes are `mkOk`/`rdOk`:
the pair is the emitted warning events and whether the call returned
`Ok`. -/
def copy_recursive (exts folders : List String) (mkOk rdOk : Bool)
    (entries : Fsx) : List Ev × Bool :=
  copyDirWrap mkOk rdOk (copy_entries exts folders entries)

/-- Zip phase of `execute_backup` (src/main.rs lines 706-730): the single
log event it emits when `use_zip` is on, chosen by the `7z` invocation
outcome (`.ok st` carries the exit success flag, `.error ()` means the
tool failed to launch). -/
def zip_events (s_use_zip : Bool) (zip_run : Except Unit Bool) : List Ev :=
  if s_use_zip then
    [match zip_run with
      | .ok true => Ev.zipOk
      | .ok false => Ev.zipExitErr
      | .error _ => Ev.zipLaunchErr]
  else []

/-- Rust `execute_backup` (src/main.rs lines 671-735). `src_exists`,
`dest_exists` and `dest_mk` are the outcomes of the prologue filesystem
probes; `root_mk`/`root_rd` those of the top-level `copy_recursive` call.
Returns the events sent over the channel and the run's success flag. -/
def execute_backup (s_skip_file_exts_label s_skip_folders_label : String)
    (s_use_zip : Bool) (src_exists dest_exists dest_mk root_mk root_rd : Bool)
    (tree : Fsx) (zip_run : Except Unit Bool) : List Ev × Bool :=
  if !src_exists then ([Ev.srcMissing], false)
  else if !dest_exists && !dest_mk then ([Ev.destCreateFailed], false)
  else
    let exts := parse_skip_tokens s_skip_file_exts_label
    let folders := parse_folder_tokens s_skip_folders_label
    let c := copy_recursive exts folders root_mk root_rd tree
    if !c.2 then (Ev.started :: c.1 ++ [Ev.copyFailed], false)
    else (Ev.started :: c.1 ++ zip_events s_use_zip zip_run ++ [Ev.completed], true)

/-- Body of the thread spawned by `AppState::spawn_backup` (src/main.rs
lines 552-555): run `execute_backup`, then send `BackupFinished(idx, ok)`
carrying only the launch-time index. -/
def run_unit (s_skip_file_exts_label s_skip_folders_label : String)
    (s_use_zip : Bool) (src_exists dest_exists dest_mk root_mk root_rd : Bool)
    (tree : Fsx) (zip_run : Except Unit Bool) (idx : Nat) : List Ev :=
  let r := execute_backup s_skip_file_exts_label s_skip_folders_label s_use_zip
    src_exists dest_exists dest_mk root_mk root_rd tree zip_run
  r.1 ++ [Ev.finished idx r.2]

/-- Structural success of a traversal: every directory that is not skipped
can have its mirror created, can be listed, and has structurally sound
children. File copy outcomes are irrelevant. -/
def struct_all_ok (folders : List String) : Fsx → Bool
  | .nil => true
  | .file _ _ rest => struct_all_ok folders rest
  | .dir n mkOk rdOk children rest =>
    (if folder_skip_decision n folders then true
     else mkOk && rdOk && struct_all_ok folders children) &&
    struct_all_ok folders rest

/-- Names of the non-skipped files whose copy fails, in traversal order. -/
def failed_files (exts folders : List String) : Fsx → List String
  | .nil => []
  | .file n copyOk rest =>
    if file_skip_decision n exts then failed_files exts folders rest
    else if copyOk then failed_files exts folders rest
    else n :: failed_files exts folders rest
  | .dir n _ _ children rest =>
    if folder_skip_decision n folders then failed_files exts folders rest
    else failed_files exts folders children ++ failed_files exts folders rest

/-- Rust `Schedule` (src/main.rs lines 15-25). `last_time` is an `Int`
wall-clock time in seconds. -/
structure Schedule where
  source_dir : String
  dest_dir : String
  period_hours : Int
  skip_file_exts_label : String
  skip_folders_label : String
  use_zip : Bool
  last_time : Int
  is_running : Bool
deriving DecidableEq

/-- Rust `Schedule::new` (src/main.rs lines 28-46): `now` is the
`Local::now()` creation instant; `is_running` starts `false`. -/
def Schedule.new (source_dir dest_dir : String) (period_hours : Int)
    (skip_file_exts_label skip_folders_label : String) (use_zip : Bool)
    (now : Int) : Schedule :=
  { source_dir := source_dir
    dest_dir := dest_dir
    period_hours := period_hours
    skip_file_exts_label := skip_file_exts_label
    skip_folders_label := skip_folders_label
    use_zip := use_zip
    last_time := now
    is_running := false }

/-- Placeholder schedule used as the `List.getD` default in statements. -/
def schedule0 : Schedule := Schedule.new "" "" 24 "" "" false 0

/-- Outcomes of the filesystem probes the controller actions make, plus
the `default_backup_root()` constant. -/
structure Env where
  path_exists : String → Bool
  mkdir_ok : String → Bool
  backup_root : String

/-- Controller state: the fields of Rust `AppState` (src/main.rs lines
54-74) that the verified operations touch. `logs` holds the pushed log
messages without the timestamp prefix; `spawned` records each
`thread::spawn` of `spawn_backup` as the launch index paired with the
schedule clone handed to the thread (snapshot-at-launch). -/
structure AppState where
  schedules : List Schedule
  selected_index : Option Nat
  input_source_dir : String
  input_dest_dir : String
  input_period_hours : String
  label_skip_files : String
  label_skip_folders : String
  input_use_zip : Bool
  logs : List String
  spawned : List (Nat × Schedule)
deriving DecidableEq

/-- Rust `AppState::log` (src/main.rs lines 493-500), with the
`[timestamp]` prefix elided. -/
def push_log (st : AppState) (msg : String) : AppState :=
  { st with logs := st.logs ++ [msg] }

/-- Period-input handling shared by `action_add` and `action_edit`
(src/main.rs lines 361-367 and 407-413): trim, parse as `i32`, keep only
values `>= 1`, and fall back to 24 otherwise. -/
def period_of (inp : String) : Int :=
  ((parseI32Chars (trimChars inp.data)).filter
    (fun p => decide (1 ≤ p))).getD 24

/-- Rust `AppState::clear_inputs` (src/main.rs lines 482-491). -/
def clear_inputs (env : Env) (st : AppState) : AppState :=
  { st with
    input_source_dir := ""
    input_dest_dir := env.backup_root
    input_period_hours := "24"
    label_skip_files := ""
    label_skip_folders := ""
    input_use_zip := false }

/-- Rust `AppState::action_add` (src/main.rs lines 360-400). Persistence
(`save_data`) writes outside the controller state and is modelled
separately. -/
def action_add (env : Env) (st : AppState) (now : Int) : AppState :=
  let period := period_of st.input_period_hours
  if strTrim st.input_source_dir = "" then
    push_log st "Source folder is empty"
  else if !env.path_exists st.input_source_dir then
    push_log st "Source folder does not exist"
  else if strTrim st.input_dest_dir = "" then
    push_log st "Destination folder is empty"
  else if !env.path_exists st.input_dest_dir && !env.mkdir_ok st.input_dest_dir then
    push_log st "Failed to create destination"
  else
    let sched := Schedule.new st.input_source_dir st.input_dest_dir period
      st.label_skip_files st.label_skip_folders st.input_use_zip now
    let st := { st with schedules := st.schedules ++ [sched] }
    let st := { st with selected_index := some (st.schedules.length - 1) }
    clear_inputs env st

/-- In-place update of element `idx`, a no-op past the end (Rust indexing
`self.schedules[idx]` would panic there instead; `action_edit` only
reaches it with a valid selection). -/
def modify_at (f : Schedule → Schedule) : List Schedule → Nat → List Schedule
  | [], _ => []
  | s :: rest, 0 => f s :: rest
  | s :: rest, n + 1 => s :: modify_at f rest n

/-- Rust `AppState::action_edit` (src/main.rs lines 402-440). -/
def action_edit (env : Env) (st : AppState) : AppState :=
  match st.selected_index with
  | none => push_log st "Select a row to edit"
  | some idx =>
    let period := period_of st.input_period_hours
    if strTrim st.input_source_dir = "" || !env.path_exists st.input_source_dir then
      push_log st "Invalid source folder"
    else if strTrim st.input_dest_dir = "" then
      push_log st "Invalid destination folder"
    else if !env.path_exists st.input_dest_dir && !env.mkdir_ok st.input_dest_dir then
      push_log st "Failed to create destination"
    else
      let upd := fun (s : Schedule) =>
        { s with
          source_dir := st.input_source_dir
          dest_dir := st.input_dest_dir
          period_hours := period
          skip_file_exts_label := st.label_skip_files
          skip_folders_label := st.label_skip_folders
          use_zip := st.input_use_zip }
      clear_inputs env { st with schedules := modify_at upd st.schedules idx }

/-- Rust `AppState::action_delete` (src/main.rs lines 442-452). -/
def action_delete (st : AppState) : AppState :=
  match st.selected_index with
  | none => push_log st "Select a row to delete"
  | some idx =>
    if idx < st.schedules.length then
      { st with schedules := st.schedules.eraseIdx idx, selected_index := none }
    else st

/-- Rust `AppState::spawn_backup` (src/main.rs lines 542-556): marks the
job running, logs the start line, and records the thread launch with the
cloned schedule. -/
def spawn_backup (st : AppState) (idx : Nat) : AppState :=
  if h : idx < st.schedules.length then
    let s := st.schedules.get ⟨idx, h⟩
    { st with
      schedules := modify_at (fun t => { t with is_running := true }) st.schedules idx
      logs := st.logs ++ ["Backup started: " ++ s.source_dir]
      spawned := st.spawned ++ [(idx, { s with is_running := true })] }
  else st

/-- Rust `AppState::action_run_now` (src/main.rs lines 454-467). -/
def action_run_now (st : AppState) : AppState :=
  match st.selected_index with
  | none => push_log st "Select a row to run"
  | some idx =>
    if h : idx < st.schedules.length then
      if (st.schedules.get ⟨idx, h⟩).is_running then
        push_log st "Backup already running"
      else spawn_backup st idx
    else st

/-- Due-ness decision of the per-second scan in `AppState::tick`
(src/main.rs lines 524-537): a running job is never due; otherwise the
truncated whole-hour count of the elapsed seconds is compared with the
period. -/
def due_decision (s : Schedule) (now : Int) : Bool :=
  if s.is_running then false
  else decide (s.period_hours ≤ (now - s.last_time).tdiv 3600)

/-- Handling of one `AppMsg::BackupFinished(idx, ok)` in `AppState::tick`
(src/main.rs lines 507-517): `schedules.get_mut(idx)` clears the running
flag and stamps `last_time` on whatever job sits at `idx` now, and does
nothing when `idx` is out of range. -/
def apply_finished : List Schedule → Nat → Int → List Schedule
  | [], _, _ => []
  | s :: rest, 0, now => { s with is_running := false, last_time := now } :: rest
  | s :: rest, n + 1, now => s :: apply_finished rest n now

/-- Choose-destination dialog handler in `AppState::ui_top` (src/main.rs
lines 135-143): a picked folder equal to the source is refused with a log
line and the destination input is left unchanged. -/
def choose_dest (st : AppState) (picked : String) : AppState :=
  if st.input_source_dir = picked then
    push_log st "Destination cannot equal source"
  else { st with input_dest_dir := picked }

/-- One persisted record line of `AppState::save_data` (src/main.rs lines
616-625), without the trailing newline: the six fields comma-joined. -/
def record_of (s : Schedule) : List Char :=
  s.source_dir.data ++ ',' :: (s.dest_dir.data ++ ',' ::
    (intToChars s.period_hours ++ ',' :: (s.skip_file_exts_label.data ++ ',' ::
      (s.skip_folders_label.data ++ ',' :: boolChars s.use_zip))))

/-- Rust `AppState::save_data` (src/main.rs lines 606-629): the full
character stream written to `AutoBackup.ini` (title line, count line, one
record per schedule, each line newline-terminated by `writeln!`). -/
def save_data (ss : List Schedule) : List Char :=
  "Count".data ++ '\n' :: (natToChars ss.length ++ '\n' ::
    (ss.map (fun s => record_of s ++ ['\n'])).flatten)

/-- Record-line parser of `AppState::load_data` (src/main.rs lines
575-598): `trim_end`, split on commas, skip lines with fewer than three
fields, defaults for missing or unparsable trailing fields, `running`
false and `last_time` the load instant (`Schedule::new`). -/
def parse_record (now : Int) (line : List Char) : Option Schedule :=
  let parts := splitOnChar ',' (trimEndChars line)
  if 3 ≤ parts.length then
    some (Schedule.new (String.mk (parts.getD 0 []))
      (String.mk (parts.getD 1 []))
      ((parseI32Chars (parts.getD 2 [])).getD 24)
      (String.mk (parts.getD 3 []))
      (String.mk (parts.getD 4 []))
      ((parseBoolChars (parts.getD 5 [])).getD false)
      now)
  else none

/-- Record-reading loop of `load_data` (src/main.rs lines 570-599): reads
`count` lines (`read_line` at end-of-file yields an empty line, which the
fewer-than-three-fields check then skips). -/
def load_records (now : Int) : Nat → List (List Char) → List Schedule
  | 0, _ => []
  | n + 1, lines =>
    (match parse_record now (lines.headD []) with
      | some s => [s]
      | none => []) ++ load_records now n lines.tail

/-- Rust `AppState::load_data` (src/main.rs lines 558-604) on the file's
character stream: line 1 is the ignored title, line 2 the record count
(`trim` then `usize` parse, default 0), then the record loop. -/
def load_data (file : List Char) (now : Int) : List Schedule :=
  let lines := splitOnChar '\n' file
  let count := (parseUsizeChars (trimChars (lines.getD 1 []))).getD 0
  load_records now count (lines.drop 2)

/-- Field values a completed run writes back on `BackupFinished`, and
also what `load_data` restores for every loaded job: not running, with
`last_time` the given instant. -/
def refreshed (now : Int) (s : Schedule) : Schedule :=
  { s with is_running := false, last_time := now }

/-- Persisted-field well-formedness for the save/load round trip: the
four string fields contain no comma and no newline (the flat format has
no escaping), and the period is an `i32` value. -/
def good_field (s : String) : Prop := ',' ∉ s.data ∧ '\n' ∉ s.data

/-- Well-formedness of one schedule for the round-trip statement. -/
def good_schedule (s : Schedule) : Prop :=
  good_field s.source_dir ∧ good_field s.dest_dir ∧
    good_field s.skip_file_exts_label ∧ good_field s.skip_folders_label ∧
      -(2 : Int) ^ 31 ≤ s.period_hours ∧ s.period_hours < 2 ^ 31

instance (s : String) : Decidable (good_field s) := by
  unfold good_field; infer_instance

instance (s : Schedule) : Decidable (good_schedule s) := by
  unfold good_schedule; infer_instance

/-- Truncating division by 3600 reaches a period of at least one hour
exactly when the full number of period-seconds has elapsed. -/
theorem tdiv_3600_ge_iff (e P : Int) (hP : 1 ≤ P) :
    P ≤ e.tdiv 3600 ↔ 3600 * P ≤ e := by
  rcases le_or_lt 0 e with he | he
  · rw [Int.tdiv_eq_ediv he (by norm_num),
      Int.le_ediv_iff_mul_le (by norm_num : (0 : Int) < 3600)]
    constructor <;> intro h <;> linarith
  · constructor
    · intro h
      exfalso
      have hneg : e.tdiv 3600 ≤ 0 := by
        have he' : e = -(-e) := by ring
        rw [he', Int.neg_tdiv]
        have : 0 ≤ (-e).tdiv 3600 := Int.tdiv_nonneg (by omega) (by norm_num)
        omega
      omega
    · intro h
      exfalso
      nlinarith

/-- Claim C3: an Idle job with period `P` hours and last run at `T` is
launched by a scheduler evaluation tick exactly when `now >= T + P`
hours, with whole-hour granularity (truncated `elapsed-seconds / 3600`
compared against `P`, src/main.rs lines 524-537); the period invariant
`period_hours >= 1` of the data model is assumed. -/
theorem c3_scheduler_due_iff (s : Schedule) (now : Int)
    (hidle : s.is_running = false) (hper : 1 ≤ s.period_hours) :
    due_decision s now = true ↔ s.last_time + 3600 * s.period_hours ≤ now := by
  unfold due_decision
  rw [hidle]
  simp only [Bool.false_eq_true, if_false, decide_eq_true_eq]
  rw [tdiv_3600_ge_iff _ _ hper]
  omega

/-- Concrete schedule for the C3 witness: period 2 hours, last run at
second 100. -/
def sched_c3 : Schedule := Schedule.new "/s" "/d" 2 "" "" false 100

/-- Witness for C3 at a concrete input: the job is idle, its period is
positive, and the tick at second 7300 (two hours and 100 seconds after
the last run) launches it. -/
theorem c3_scheduler_due_iff_witness :
    sched_c3.is_running = false ∧ 1 ≤ sched_c3.period_hours ∧
      due_decision sched_c3 7300 = true :=
  ⟨rfl, by decide,
    (c3_scheduler_due_iff sched_c3 7300 rfl (by decide)).mpr (by decide)⟩

/-- Updating position `idx` in place commutes with `List.getD` at that
position. -/
theorem modify_at_getD (f : Schedule → Schedule) :
    ∀ (l : List Schedule) (i : Nat) (d : Schedule), i < l.length →
      (modify_at f l i).getD i d = f (l.getD i d) := by
  intro l
  induction l with
  | nil => intro i d h; simp at h
  | cons s rest ih =>
    intro i d h
    cases i with
    | zero => rfl
    | succ n =>
      simp only [modify_at, List.getD_cons_succ]
      exact ih n d (by simpa using h)

/-- Claim C4: at most one execution unit per job is in flight — the
scheduler due-ness check returns false for a running job, a manual
run-now on a running job only logs the refusal (same schedules, no new
launch), and `spawn_backup` raises the launched job's running flag. -/
theorem c4_at_most_one_in_flight :
    (∀ (s : Schedule) (now : Int), s.is_running = true →
      due_decision s now = false)
    ∧ (∀ (st : AppState) (idx : Nat) (h : idx < st.schedules.length),
        st.selected_index = some idx →
        (st.schedules.get ⟨idx, h⟩).is_running = true →
        action_run_now st = push_log st "Backup already running")
    ∧ (∀ (st : AppState) (idx : Nat), idx < st.schedules.length →
        ((spawn_backup st idx).schedules.getD idx schedule0).is_running = true) := by
  refine ⟨?_, ?_, ?_⟩
  · intro s now h
    unfold due_decision
    rw [h]
    simp
  · intro st idx h hsel hrun
    simp only [action_run_now, hsel]
    rw [dif_pos h, if_pos hrun]
  · intro st idx h
    unfold spawn_backup
    rw [dif_pos h]
    simp only
    rw [modify_at_getD _ _ _ _ h]

/-- Concrete running schedule for the C4 witness. -/
def sched_running : Schedule := { sched_c3 with is_running := true }

/-- Concrete controller state for the C4 witness: one running job,
selected. -/
def st_c4 : AppState :=
  { schedules := [sched_running]
    selected_index := some 0
    input_source_dir := ""
    input_dest_dir := ""
    input_period_hours := "24"
    label_skip_files := ""
    label_skip_folders := ""
    input_use_zip := false
    logs := []
    spawned := [] }

/-- Concrete idle-job controller state for the C4 witness. -/
def st_c4_idle : AppState := { st_c4 with schedules := [sched_c3] }

/-- Witness for C4 at concrete inputs: the running job is not due, the
run-now on it is refused with only a log line, and spawning on the idle
state marks the job running. -/
theorem c4_at_most_one_in_flight_witness :
    sched_running.is_running = true ∧
      due_decision sched_running 7300 = false ∧
      action_run_now st_c4 = push_log st_c4 "Backup already running" ∧
      ((spawn_backup st_c4_idle 0).schedules.getD 0 schedule0).is_running = true :=
  ⟨rfl, c4_at_most_one_in_flight.1 sched_running 7300 rfl,
    c4_at_most_one_in_flight.2.1 st_c4 0 (by decide) rfl rfl,
    c4_at_most_one_in_flight.2.2 st_c4_idle 0 (by decide)⟩

/-- Concrete jobs for the C10 re-indexing scenario. -/
def jobA : Schedule := Schedule.new "/a" "/da" 24 "" "" false 0

/-- Second concrete job for the C10 scenario, the one that is launched. -/
def jobB : Schedule := Schedule.new "/b" "/db" 24 "" "" false 0

/-- Third concrete job for the C10 scenario, the one the completion event
ends up hitting. -/
def jobC : Schedule := Schedule.new "/c" "/dc" 24 "" "" false 0

/-- Controller state for the C10 scenario: three jobs, row 1 selected. -/
def st_c10 : AppState :=
  { schedules := [jobA, jobB, jobC]
    selected_index := some 1
    input_source_dir := ""
    input_dest_dir := ""
    input_period_hours := "24"
    label_skip_files := ""
    label_skip_folders := ""
    input_use_zip := false
    logs := []
    spawned := [] }

/-- C10 scenario, step 1: run-now launches the job at index 1 (`jobB`). -/
def st_c10_run : AppState := action_run_now st_c10

/-- C10 scenario, step 2: while `jobB` runs, the job at index 0 is
deleted, shifting all later indices down. -/
def st_c10_del : AppState := action_delete { st_c10_run with selected_index := some 0 }

/-- Claim C10: a completion event carries only the launch-time index;
`tick` applies `running := false` and the new `last_time` to whatever job
occupies that index when the event is drained (positional `get_mut`), to
no job at all when the index is out of range, and never re-matches the
launched job by identity. Concretely: after launching index 1 (`jobB`)
and deleting index 0, the completion for index 1 updates `jobC` — a job
that never ran — while `jobB` is left permanently marked running. -/
theorem c10_completion_by_launch_index :
    (∀ (ss : List Schedule) (idx : Nat) (now : Int) (h : idx < ss.length),
      apply_finished ss idx now = ss.set idx (refreshed now (ss.get ⟨idx, h⟩)))
    ∧ (∀ (ss : List Schedule) (idx : Nat) (now : Int),
      ss.length ≤ idx → apply_finished ss idx now = ss)
    ∧ (st_c10_run.spawned = [(1, { jobB with is_running := true })]
      ∧ st_c10_del.schedules = [{ jobB with is_running := true }, jobC]
      ∧ apply_finished st_c10_del.schedules 1 99 =
          [{ jobB with is_running := true }, { jobC with last_time := 99 }]) := by
  refine ⟨?_, ?_, by decide, by decide, by decide⟩
  · intro ss
    induction ss with
    | nil => intro idx now h; simp at h
    | cons s rest ih =>
      intro idx now h
      cases idx with
      | zero => simp [apply_finished, refreshed]
      | succ n =>
        simp only [apply_finished, List.set, List.get]
        rw [ih n now (by simpa using h)]
  · intro ss
    induction ss with
    | nil => intro idx now _; cases idx <;> rfl
    | cons s rest ih =>
      intro idx now h
      cases idx with
      | zero => simp at h
      | succ n =>
        simp only [apply_finished]
        rw [ih n now (by simpa using h)]

/-- Witness for C10 at concrete inputs: an in-range completion rewrites
exactly the job at its index, and an out-of-range completion changes
nothing. -/
theorem c10_completion_by_launch_index_witness :
    apply_finished [jobA, jobB] 0 7 = [refreshed 7 jobA, jobB]
      ∧ apply_finished [jobA, jobB] 5 7 = [jobA, jobB] :=
  ⟨by
    have h := c10_completion_by_launch_index.1 [jobA, jobB] 0 7 (by decide)
    simpa using h,
    c10_completion_by_launch_index.2.1 [jobA, jobB] 5 7 (by decide)⟩

/-- Filesystem oracle on which every probe succeeds. -/
def env_all : Env :=
  { path_exists := fun _ => true, mkdir_ok := fun _ => true, backup_root := "/BackUp" }

/-- Controller state with identical (existing) source and destination
inputs, exercising `action_add`. -/
def st_c1 : AppState :=
  { schedules := []
    selected_index := none
    input_source_dir := "/a"
    input_dest_dir := "/a"
    input_period_hours := "24"
    label_skip_files := ""
    label_skip_folders := ""
    input_use_zip := false
    logs := []
    spawned := [] }

/-- Counterexample to claim C1 as stated: with source and destination
inputs both `/a` (an existing path), `action_add` performs no
source-equals-destination comparison, appends the job, and logs no
validation error — the Job Collection is not unchanged. -/
theorem c1_counterexample :
    st_c1.input_source_dir = st_c1.input_dest_dir
      ∧ (action_add env_all st_c1 5).schedules ≠ st_c1.schedules
      ∧ (action_add env_all st_c1 5).schedules =
          [Schedule.new "/a" "/a" 24 "" "" false 5]
      ∧ (action_add env_all st_c1 5).logs = st_c1.logs := by
  refine ⟨rfl, by decide, by decide, by decide⟩

/-- Claim C1 as amended: the source-equals-destination rejection exists
only in the destination folder-picker dialog, which refuses to store a
picked path equal to the source and logs the validation error;
`action_add` itself never compares the two paths and appends the job
whenever the emptiness and existence checks pass, even when
`source_path = dest_path`. -/
theorem c1_dest_equals_source_amended :
    (∀ (st : AppState) (p : String), st.input_source_dir = p →
      choose_dest st p = push_log st "Destination cannot equal source")
    ∧ (∀ (env : Env) (st : AppState) (now : Int),
      st.input_source_dir = st.input_dest_dir →
      strTrim st.input_source_dir ≠ "" →
      env.path_exists st.input_source_dir = true →
      strTrim st.input_dest_dir ≠ "" →
      env.path_exists st.input_dest_dir = true →
      (action_add env st now).schedules = st.schedules ++
        [Schedule.new st.input_source_dir st.input_dest_dir
          (period_of st.input_period_hours) st.label_skip_files
          st.label_skip_folders st.input_use_zip now]) := by
  constructor
  · intro st p hp
    unfold choose_dest
    rw [if_pos hp]
  · intro env st now _ h1 h2 h3 h4
    unfold action_add
    rw [if_neg h1, h2]
    simp only [Bool.not_true, Bool.false_eq_true, if_false]
    rw [if_neg h3, h4]
    simp only [Bool.not_true, Bool.false_and, Bool.false_eq_true, if_false]
    rfl

/-- Witness for the amended C1 at concrete inputs: picking the source
path as destination is refused and logged, while `action_add` with
source = destination appends the job. -/
theorem c1_dest_equals_source_amended_witness :
    choose_dest st_c1 "/a" = push_log st_c1 "Destination cannot equal source"
      ∧ (action_add env_all st_c1 5).schedules =
          st_c1.schedules ++ [Schedule.new "/a" "/a" (period_of "24") "" "" false 5] :=
  ⟨c1_dest_equals_source_amended.1 st_c1 "/a" rfl,
    c1_dest_equals_source_amended.2 env_all st_c1 5 rfl (by decide) rfl (by decide) rfl⟩

/-- Controller state with an invalid period input `0` and distinct valid
paths, exercising `action_add`. -/
def st_c2 : AppState := { st_c1 with input_dest_dir := "/b", input_period_hours := "0" }

/-- Counterexample to claim C2 as stated: the period input `0` is not a
positive integer, yet `action_add` is not rejected and no validation
error is reported — the job is appended with the silently substituted
default period 24. -/
theorem c2_counterexample :
    parseI32Chars (trimChars ("0".data)) = some 0
      ∧ period_of "0" = 24
      ∧ (action_add env_all st_c2 5).schedules =
          [Schedule.new "/a" "/b" 24 "" "" false 5]
      ∧ (action_add env_all st_c2 5).logs = st_c2.logs := by
  refine ⟨by decide, by decide, by decide, by decide⟩

/-- Claim C2 as amended: an invalid period input (one that does not parse
as an `i32` that is at least 1) is not rejected and produces no error
report; the value silently falls back to the default 24 and the add or
edit proceeds, appending the job or replacing the selected job's fields
with that period. -/
theorem c2_invalid_period_amended :
    (∀ inp : String,
      (parseI32Chars (trimChars inp.data)).filter (fun p => decide (1 ≤ p)) = none →
      period_of inp = 24)
    ∧ (∀ (env : Env) (st : AppState) (now : Int),
      strTrim st.input_source_dir ≠ "" →
      env.path_exists st.input_source_dir = true →
      strTrim st.input_dest_dir ≠ "" →
      env.path_exists st.input_dest_dir = true →
      (action_add env st now).schedules = st.schedules ++
        [Schedule.new st.input_source_dir st.input_dest_dir
          (period_of st.input_period_hours) st.label_skip_files
          st.label_skip_folders st.input_use_zip now])
    ∧ (∀ (env : Env) (st : AppState) (idx : Nat),
      st.selected_index = some idx →
      strTrim st.input_source_dir ≠ "" →
      env.path_exists st.input_source_dir = true →
      strTrim st.input_dest_dir ≠ "" →
      env.path_exists st.input_dest_dir = true →
      (action_edit env st).schedules =
        modify_at (fun s =>
          { s with
            source_dir := st.input_source_dir
            dest_dir := st.input_dest_dir
            period_hours := period_of st.input_period_hours
            skip_file_exts_label := st.label_skip_files
            skip_folders_label := st.label_skip_folders
            use_zip := st.input_use_zip }) st.schedules idx) := by
  refine ⟨?_, ?_, ?_⟩
  · intro inp h
    unfold period_of
    rw [h]
    rfl
  · intro env st now h1 h2 h3 h4
    unfold action_add
    rw [if_neg h1, h2]
    simp only [Bool.not_true, Bool.false_eq_true, if_false]
    rw [if_neg h3, h4]
    simp only [Bool.not_true, Bool.false_and, Bool.false_eq_true, if_false]
    rfl
  · intro env st idx hsel h1 h2 h3 h4
    simp only [action_edit, hsel]
    rw [h2]
    simp only [Bool.not_true, Bool.or_false, decide_eq_true_eq]
    rw [if_neg h1, if_neg h3, h4]
    simp only [Bool.not_true, Bool.false_and, Bool.false_eq_true, if_false]
    rfl

/-- Witness for the amended C2 at concrete inputs: the period `0` input
falls back to 24 and the add still appends a job. -/
theorem c2_invalid_period_amended_witness :
    period_of "0" = 24
      ∧ (action_add env_all st_c2 5).schedules =
          st_c2.schedules ++ [Schedule.new "/a" "/b" (period_of "0") "" "" false 5] :=
  ⟨c2_invalid_period_amended.1 "0" (by decide),
    c2_invalid_period_amended.2.1 env_all st_c2 5 (by decide) rfl (by decide) rfl⟩

/-- Success flag of the prologue wrapper: both probes and the body. -/
theorem copyDirWrap_snd (mkOk rdOk : Bool) (b : List Ev × Bool) :
    (copyDirWrap mkOk rdOk b).2 = (mkOk && rdOk && b.2) := by
  cases mkOk <;> cases rdOk <;> simp [copyDirWrap]

/-- Events of the prologue wrapper when both probes succeed. -/
theorem copyDirWrap_true_true (b : List Ev × Bool) :
    copyDirWrap true true b = b := by
  simp [copyDirWrap]

/-- The success flag of the entry loop is exactly structural soundness of
the traversed tree: file copy failures never flip it, and a failing
subdirectory always does. -/
theorem copy_entries_snd (exts folders : List String) :
    ∀ t : Fsx, (copy_entries exts folders t).2 = struct_all_ok folders t := by
  intro t
  induction t with
  | nil => rfl
  | file n copyOk rest ih =>
    by_cases hskip : file_skip_decision n exts = true
    · simp [copy_entries, struct_all_ok, hskip, ih]
    · cases copyOk <;> simp [copy_entries, struct_all_ok, hskip, ih]
  | dir n mkOk rdOk children rest ih_ch ih_rest =>
    by_cases hskip : folder_skip_decision n folders = true
    · simp [copy_entries, struct_all_ok, hskip, ih_rest]
    · simp only [copy_entries, struct_all_ok, hskip, Bool.false_eq_true, if_false]
      by_cases hsub : (copyDirWrap mkOk rdOk (copy_entries exts folders children)).2 = true
      · rw [if_pos hsub]
        have : (mkOk && rdOk && struct_all_ok folders children) = true := by
          rw [← ih_ch, ← copyDirWrap_snd]; exact hsub
        simp [this, ih_rest]
      · rw [if_neg hsub]
        have : (mkOk && rdOk && struct_all_ok folders children) = false := by
          rw [← ih_ch, ← copyDirWrap_snd]; simpa using hsub
        simp [this]
        simpa using hsub

/-- On a structurally sound tree the entry loop returns `Ok` and its
events are exactly one warning per non-skipped failing file copy, in
traversal order. -/
theorem copy_entries_fst_ok (exts folders : List String) :
    ∀ t : Fsx, struct_all_ok folders t = true →
      (copy_entries exts folders t).1 =
        (failed_files exts folders t).map Ev.copyWarn := by
  intro t
  induction t with
  | nil => intro _; rfl
  | file n copyOk rest ih =>
    intro hok
    have hrest : struct_all_ok folders rest = true := by
      simpa [struct_all_ok] using hok
    by_cases hskip : file_skip_decision n exts = true
    · simp [copy_entries, failed_files, hskip, ih hrest]
    · cases copyOk <;> simp [copy_entries, failed_files, hskip, ih hrest]
  | dir n mkOk rdOk children rest ih_ch ih_rest =>
    intro hok
    by_cases hskip : folder_skip_decision n folders = true
    · have hrest : struct_all_ok folders rest = true := by
        simpa [struct_all_ok, hskip] using hok
      simp [copy_entries, failed_files, hskip, ih_rest hrest]
    · have hok' := hok
      simp only [struct_all_ok, hskip, Bool.false_eq_true, if_false,
        Bool.and_eq_true] at hok'
      obtain ⟨⟨⟨hmk, hrd⟩, hch⟩, hrest⟩ := hok'
      subst hmk; subst hrd
      simp only [copy_entries, failed_files, hskip, Bool.false_eq_true, if_false,
        copyDirWrap_true_true]
      rw [if_pos (by rw [copy_entries_snd]; exact hch)]
      simp [ih_ch hch, ih_rest hrest]

/-- Claim C5: in a run whose directory creations and listings all succeed,
every non-skipped failing file copy is reported as exactly one warning
event, traversal continues past each failure (all failing files appear,
in traversal order), the run completes, and the execution unit terminates
with `BackupFinished(idx, success = true)`. -/
theorem c5_per_file_warnings (exts_label folders_label : String)
    (use_zip dest_exists dest_mk : Bool) (tree : Fsx)
    (zip_run : Except Unit Bool) (idx : Nat)
    (hdest : dest_exists = true ∨ dest_mk = true)
    (hstruct : struct_all_ok (parse_folder_tokens folders_label) tree = true)
    (_hfail : failed_files (parse_skip_tokens exts_label)
      (parse_folder_tokens folders_label) tree ≠ []) :
    execute_backup exts_label folders_label use_zip true dest_exists dest_mk
        true true tree zip_run =
      (Ev.started ::
        (failed_files (parse_skip_tokens exts_label)
          (parse_folder_tokens folders_label) tree).map Ev.copyWarn ++
        zip_events use_zip zip_run ++ [Ev.completed], true)
    ∧ run_unit exts_label folders_label use_zip true dest_exists dest_mk
        true true tree zip_run idx =
      (Ev.started ::
        (failed_files (parse_skip_tokens exts_label)
          (parse_folder_tokens folders_label) tree).map Ev.copyWarn ++
        zip_events use_zip zip_run ++ [Ev.completed]) ++ [Ev.finished idx true] := by
  have hdcond : (!dest_exists && !dest_mk) = false := by
    rcases hdest with h | h <;> simp [h]
  have hmain : execute_backup exts_label folders_label use_zip true dest_exists
      dest_mk true true tree zip_run =
      (Ev.started ::
        (failed_files (parse_skip_tokens exts_label)
          (parse_folder_tokens folders_label) tree).map Ev.copyWarn ++
        zip_events use_zip zip_run ++ [Ev.completed], true) := by
    unfold execute_backup
    simp only [Bool.not_true, Bool.false_eq_true, if_false, hdcond]
    unfold copy_recursive
    rw [copyDirWrap_true_true]
    rw [copy_entries_fst_ok _ _ _ hstruct]
    have hsnd := copy_entries_snd (parse_skip_tokens exts_label)
      (parse_folder_tokens folders_label) tree
    rw [hstruct] at hsnd
    simp [hsnd]
  exact ⟨hmain, by unfold run_unit; rw [hmain]⟩

/-- Source tree for the C5 witness: `a.txt` whose copy fails, `b.log`
whose copy would fail but which is skipped by extension, `c.txt` which
copies fine. -/
def tree_c5 : Fsx := .file "a.txt" false (.file "b.log" false (.file "c.txt" true .nil))

/-- Witness for C5 at concrete inputs: the one non-skipped failing file
produces the one warning and the run still ends successfully. -/
theorem c5_per_file_warnings_witness :
    struct_all_ok (parse_folder_tokens "") tree_c5 = true
    ∧ failed_files (parse_skip_tokens "*.log") (parse_folder_tokens "") tree_c5 = ["a.txt"]
    ∧ execute_backup "*.log" "" false true true true true true tree_c5 (.ok true)
        = ([Ev.started, Ev.copyWarn "a.txt", Ev.completed], true)
    ∧ run_unit "*.log" "" false true true true true true tree_c5 (.ok true) 3
        = [Ev.started, Ev.copyWarn "a.txt", Ev.completed, Ev.finished 3 true] := by
  refine ⟨by decide, by decide, ?_, ?_⟩
  · have h := (c5_per_file_warnings "*.log" "" false true true tree_c5 (.ok true) 3
      (Or.inl rfl) (by decide) (by decide)).1
    rw [h]; decide
  · have h := (c5_per_file_warnings "*.log" "" false true true tree_c5 (.ok true) 3
      (Or.inl rfl) (by decide) (by decide)).2
    rw [h]; decide

/-- Claim C6: when a destination-directory creation or a source-directory
listing fails anywhere the traversal reaches (including the top level),
the error propagates out of the recursive copy, the whole run aborts with
the `Copy failed` log event, and the execution unit terminates with
`BackupFinished(idx, success = false)`. -/
theorem c6_structural_failure (exts_label folders_label : String)
    (use_zip dest_exists dest_mk root_mk root_rd : Bool) (tree : Fsx)
    (zip_run : Except Unit Bool) (idx : Nat)
    (hdest : dest_exists = true ∨ dest_mk = true)
    (hbad : root_mk = false ∨ root_rd = false ∨
      struct_all_ok (parse_folder_tokens folders_label) tree = false) :
    (copy_recursive (parse_skip_tokens exts_label)
      (parse_folder_tokens folders_label) root_mk root_rd tree).2 = false
    ∧ execute_backup exts_label folders_label use_zip true dest_exists dest_mk
        root_mk root_rd tree zip_run =
      (Ev.started ::
        (copy_recursive (parse_skip_tokens exts_label)
          (parse_folder_tokens folders_label) root_mk root_rd tree).1 ++
        [Ev.copyFailed], false)
    ∧ run_unit exts_label folders_label use_zip true dest_exists dest_mk
        root_mk root_rd tree zip_run idx =
      (Ev.started ::
        (copy_recursive (parse_skip_tokens exts_label)
          (parse_folder_tokens folders_label) root_mk root_rd tree).1 ++
        [Ev.copyFailed]) ++ [Ev.finished idx false] := by
  have hdcond : (!dest_exists && !dest_mk) = false := by
    rcases hdest with h | h <;> simp [h]
  have hsnd : (copy_recursive (parse_skip_tokens exts_label)
      (parse_folder_tokens folders_label) root_mk root_rd tree).2 = false := by
    unfold copy_recursive
    rw [copyDirWrap_snd, copy_entries_snd]
    rcases hbad with h | h | h <;> simp [h]
  have hmain : execute_backup exts_label folders_label use_zip true dest_exists
      dest_mk root_mk root_rd tree zip_run =
      (Ev.started ::
        (copy_recursive (parse_skip_tokens exts_label)
          (parse_folder_tokens folders_label) root_mk root_rd tree).1 ++
        [Ev.copyFailed], false) := by
    unfold execute_backup
    simp only [Bool.not_true, Bool.false_eq_true, if_false, hdcond]
    simp [hsnd]
  exact ⟨hsnd, hmain, by unfold run_unit; rw [hmain]⟩

/-- Source tree for the C6 witness: one subdirectory whose mirror cannot
be created. -/
def tree_c6 : Fsx := .dir "sub" false true .nil .nil

/-- Witness for C6 at concrete inputs: the failed mkdir aborts the run
with `Copy failed` and a failed completion event. -/
theorem c6_structural_failure_witness :
    (copy_recursive (parse_skip_tokens "") (parse_folder_tokens "") true true tree_c6).2 = false
    ∧ execute_backup "" "" false true true true true true tree_c6 (.ok true)
        = ([Ev.started, Ev.copyFailed], false)
    ∧ run_unit "" "" false true true true true true tree_c6 (.ok true) 2
        = [Ev.started, Ev.copyFailed, Ev.finished 2 false] := by
  have h := c6_structural_failure "" "" false true true true true tree_c6 (.ok true) 2
    (Or.inl rfl) (Or.inr (Or.inr (by decide)))
  refine ⟨h.1, ?_, ?_⟩
  · rw [h.2.1]; decide
  · rw [h.2.2]; decide

/-- Claim C7: with archiving enabled and a successful copy phase, a
non-zero `7z` exit status or a failure to launch `7z` only adds its own
distinct log event; the run still completes and the execution unit
terminates with `BackupFinished(idx, success = true)`. -/
theorem c7_zip_failure_nonfatal (exts_label folders_label : String)
    (dest_exists dest_mk root_mk root_rd : Bool) (tree : Fsx) (idx : Nat)
    (hdest : dest_exists = true ∨ dest_mk = true)
    (hcopy : (copy_recursive (parse_skip_tokens exts_label)
      (parse_folder_tokens folders_label) root_mk root_rd tree).2 = true) :
    execute_backup exts_label folders_label true true dest_exists dest_mk
        root_mk root_rd tree (.ok false) =
      (Ev.started ::
        (copy_recursive (parse_skip_tokens exts_label)
          (parse_folder_tokens folders_label) root_mk root_rd tree).1 ++
        [Ev.zipExitErr, Ev.completed], true)
    ∧ execute_backup exts_label folders_label true true dest_exists dest_mk
        root_mk root_rd tree (.error ()) =
      (Ev.started ::
        (copy_recursive (parse_skip_tokens exts_label)
          (parse_folder_tokens folders_label) root_mk root_rd tree).1 ++
        [Ev.zipLaunchErr, Ev.completed], true)
    ∧ run_unit exts_label folders_label true true dest_exists dest_mk
        root_mk root_rd tree (.ok false) idx =
      (Ev.started ::
        (copy_recursive (parse_skip_tokens exts_label)
          (parse_folder_tokens folders_label) root_mk root_rd tree).1 ++
        [Ev.zipExitErr, Ev.completed]) ++ [Ev.finished idx true]
    ∧ run_unit exts_label folders_label true true dest_exists dest_mk
        root_mk root_rd tree (.error ()) idx =
      (Ev.started ::
        (copy_recursive (parse_skip_tokens exts_label)
          (parse_folder_tokens folders_label) root_mk root_rd tree).1 ++
        [Ev.zipLaunchErr, Ev.completed]) ++ [Ev.finished idx true] := by
  have hdcond : (!dest_exists && !dest_mk) = false := by
    rcases hdest with h | h <;> simp [h]
  have hmain1 : execute_backup exts_label folders_label true true dest_exists
      dest_mk root_mk root_rd tree (.ok false) =
      (Ev.started ::
        (copy_recursive (parse_skip_tokens exts_label)
          (parse_folder_tokens folders_label) root_mk root_rd tree).1 ++
        [Ev.zipExitErr, Ev.completed], true) := by
    unfold execute_backup
    simp only [Bool.not_true, Bool.false_eq_true, if_false, hdcond]
    simp [hcopy, zip_events]
  have hmain2 : execute_backup exts_label folders_label true true dest_exists
      dest_mk root_mk root_rd tree (.error ()) =
      (Ev.started ::
        (copy_recursive (parse_skip_tokens exts_label)
          (parse_folder_tokens folders_label) root_mk root_rd tree).1 ++
        [Ev.zipLaunchErr, Ev.completed], true) := by
    unfold execute_backup
    simp only [Bool.not_true, Bool.false_eq_true, if_false, hdcond]
    simp [hcopy, zip_events]
  exact ⟨hmain1, hmain2,
    by unfold run_unit; rw [hmain1],
    by unfold run_unit; rw [hmain2]⟩

/-- Witness for C7 at concrete inputs: on an empty source tree with
archiving on, both archiver failure modes leave the run successful. -/
theorem c7_zip_failure_nonfatal_witness :
    execute_backup "" "" true true true true true true .nil (.ok false)
        = ([Ev.started, Ev.zipExitErr, Ev.completed], true)
    ∧ execute_backup "" "" true true true true true true .nil (.error ())
        = ([Ev.started, Ev.zipLaunchErr, Ev.completed], true) := by
  have h := c7_zip_failure_nonfatal "" "" true true true true .nil 0
    (Or.inl rfl) (by decide)
  refine ⟨?_, ?_⟩
  · rw [h.1]; decide
  · rw [h.2.1]; decide

/-- Packing a valid code point and reading it back is the identity. -/
theorem toNat_ofNat_valid (n : Nat) (h : n.isValidChar) :
    (Char.ofNat n).toNat = n := by
  rw [Char.ofNat, dif_pos h]
  rfl

/-- ASCII lowercasing is idempotent. -/
theorem lowerChar_idem (c : Char) : lowerChar (lowerChar c) = lowerChar c := by
  unfold lowerChar
  by_cases h : 65 ≤ c.toNat ∧ c.toNat ≤ 90
  · rw [if_pos h]
    have hv : (c.toNat + 32).isValidChar := Or.inl (by omega)
    rw [toNat_ofNat_valid _ hv]
    rw [if_neg (by omega)]
  · rw [if_neg h, if_neg h]

/-- ASCII lowercasing a character list is idempotent. -/
theorem lowerList_idem (l : List Char) :
    (l.map lowerChar).map lowerChar = l.map lowerChar := by
  rw [List.map_map]
  have : lowerChar ∘ lowerChar = lowerChar := funext lowerChar_idem
  rw [this]

/-- Strings are equal exactly when their character lists are. -/
theorem str_eq_iff_data (a b : String) : a = b ↔ a.data = b.data :=
  ⟨fun h => h ▸ rfl, fun h => by cases a; cases b; exact congrArg String.mk h⟩

/-- Every token produced by `parse_skip_tokens` is already ASCII
lowercase. -/
theorem tokens_lower_closed (label : String) :
    ∀ t ∈ parse_skip_tokens label, t.data.map lowerChar = t.data := by
  intro t ht
  have hshape : ∃ y : List Char, t = String.mk (y.map lowerChar) := by
    unfold parse_skip_tokens at ht
    rcases List.mem_map.mp ht with ⟨l, hl, rfl⟩
    rcases List.mem_map.mp hl with ⟨s0, _, rfl⟩
    exact ⟨_, rfl⟩
  obtain ⟨y, rfl⟩ := hshape
  exact lowerList_idem y

/-- Lowercasing preserves emptiness of a string. -/
theorem lowerStr_empty_iff (s : String) : lowerStr s = "" ↔ s = "" := by
  constructor
  · intro h
    have hdata : s.data.map lowerChar = [] := by
      have := congrArg String.data h
      simpa [lowerStr] using this
    have hnil : s.data = [] := by simpa using hdata
    exact (str_eq_iff_data s "").mpr (hnil.trans rfl)
  · rintro rfl
    rfl

/-- For a token that is already lowercase (as all parsed skip tokens
are), exact equality with the lowercased extension is the same test as
Rust `eq_ignore_ascii_case` against the raw extension. -/
theorem token_match_iff (label : String) (t : String)
    (ht : t ∈ parse_skip_tokens label) (e : String) :
    ((t == lowerStr e) = true) ↔ eqIgnoreAsciiCase t e = true := by
  rw [beq_iff_eq]
  unfold eqIgnoreAsciiCase
  rw [beq_iff_eq]
  constructor
  · rintro rfl
    exact lowerList_idem e.data
  · intro h
    have ht' := tokens_lower_closed label t ht
    rw [str_eq_iff_data]
    show t.data = (lowerStr e).data
    rw [← ht', h]
    rfl

/-- Claim C8: the copy engine's extension skip is a case-insensitive
exact whole-token match of the file's extension (Rust `Path::extension`)
against the parsed skip set, and a file without an extension is never
skipped by extension rules. -/
theorem c8_extension_skip_semantics (name label : String) :
    (file_skip_decision name (parse_skip_tokens label) = true ↔
      ∃ e : String, rust_extension name = some e ∧ e ≠ "" ∧
        (parse_skip_tokens label).any (fun t => eqIgnoreAsciiCase t e) = true)
    ∧ (rust_extension name = none →
      file_skip_decision name (parse_skip_tokens label) = false) := by
  have hfalse : (!(lowerStr "" == "")) = false := by decide
  constructor
  · cases hre : rust_extension name with
    | none =>
      simp only [file_skip_decision, hre, Option.getD_none]
      constructor
      · intro h
        rw [hfalse, Bool.false_and] at h
        exact Bool.noConfusion h
      · rintro ⟨e, he, -⟩
        cases he
    | some e =>
      simp only [file_skip_decision, hre, Option.getD_some]
      rw [Bool.and_eq_true, List.any_eq_true]
      simp only [Bool.not_eq_true', beq_eq_false_iff_ne]
      constructor
      · rintro ⟨hne, t, ht, hteq⟩
        exact ⟨e, rfl, fun hemp => hne (by rw [hemp]; rfl),
          List.any_eq_true.mpr ⟨t, ht, (token_match_iff label t ht e).mp hteq⟩⟩
      · rintro ⟨e', he', hne, hany⟩
        injection he' with heq
        subst heq
        obtain ⟨t, ht, hteq⟩ := List.any_eq_true.mp hany
        exact ⟨fun hL => hne ((lowerStr_empty_iff e).mp hL),
          t, ht, (token_match_iff label t ht e).mpr hteq⟩
  · intro hre
    simp only [file_skip_decision, hre, Option.getD_none]
    rw [hfalse, Bool.false_and]

/-- Witness for C8 at concrete inputs: token `log` (entered as `*.log`)
skips `app.LOG` case-insensitively, while `applog` (no extension) and
`a.log.txt` (extension `txt`) are not skipped. -/
theorem c8_extension_skip_semantics_witness :
    file_skip_decision "app.LOG" (parse_skip_tokens "*.log") = true
      ∧ rust_extension "applog" = none
      ∧ file_skip_decision "applog" (parse_skip_tokens "*.log") = false
      ∧ file_skip_decision "a.log.txt" (parse_skip_tokens "*.log") = false :=
  ⟨(c8_extension_skip_semantics "app.LOG" "*.log").1.mpr
      ⟨"LOG", by decide, by decide, by decide⟩,
    by decide,
    (c8_extension_skip_semantics "applog" "*.log").2 (by decide),
    by decide⟩

/-- Splitting never produces an empty field list. -/
theorem splitOnChar_ne_nil (d : Char) (cs : List Char) : splitOnChar d cs ≠ [] := by
  induction cs with
  | nil => simp [splitOnChar]
  | cons c rest ih =>
    rw [splitOnChar]
    rcases h : splitOnChar d rest with _ | ⟨f, fs⟩
    · simp
    · by_cases hc : c = d <;> simp [hc]

/-- A separator-free string splits into the single field it is. -/
theorem splitOnChar_nomem (d : Char) (cs : List Char) (h : d ∉ cs) :
    splitOnChar d cs = [cs] := by
  induction cs with
  | nil => rfl
  | cons c rest ih =>
    have hc : c ≠ d := fun hcd => h (hcd ▸ List.mem_cons_self c rest)
    have hrest : d ∉ rest := fun hd => h (List.mem_cons_of_mem c hd)
    rw [splitOnChar, ih hrest]
    simp [hc]

/-- Splitting peels off a leading separator-free field. -/
theorem splitOnChar_append (d : Char) (xs rest : List Char) (h : d ∉ xs) :
    splitOnChar d (xs ++ d :: rest) = xs :: splitOnChar d rest := by
  induction xs with
  | nil =>
    rw [List.nil_append, splitOnChar]
    rcases hr : splitOnChar d rest with _ | ⟨f, fs⟩
    · exact absurd hr (splitOnChar_ne_nil d rest)
    · simp
  | cons x xs' ih =>
    have hx : x ≠ d := fun hxd => h (hxd ▸ List.mem_cons_self x xs')
    have hxs : d ∉ xs' := fun hd => h (List.mem_cons_of_mem x hd)
    rw [List.cons_append, splitOnChar, ih hxs]
    simp [hx]

/-- `dropWhile` is the identity when no element satisfies the predicate. -/
theorem dropWhile_eq_self_of_all (p : Char → Bool) (cs : List Char)
    (h : ∀ c ∈ cs, p c = false) : cs.dropWhile p = cs := by
  cases cs with
  | nil => rfl
  | cons c rest => simp [List.dropWhile_cons, h c (List.mem_cons_self c rest)]

/-- `trim` is the identity on a string with no whitespace at all. -/
theorem trimChars_eq_self (cs : List Char)
    (h : ∀ c ∈ cs, c.isWhitespace = false) : trimChars cs = cs := by
  unfold trimChars trimEndChars
  rw [dropWhile_eq_self_of_all _ _ h]
  rw [dropWhile_eq_self_of_all _ _ (fun c hc => h c (List.mem_reverse.mp hc))]
  exact List.reverse_reverse cs

/-- `trim_end` is the identity when the last character is not
whitespace. -/
theorem trimEndChars_last (xs : List Char) (c : Char)
    (h : c.isWhitespace = false) : trimEndChars (xs ++ [c]) = xs ++ [c] := by
  unfold trimEndChars
  rw [List.reverse_append]
  simp only [List.reverse_cons, List.reverse_nil, List.nil_append,
    List.singleton_append, List.dropWhile_cons, h]
  simp

/-- Decimal digit characters parse as digits. -/
theorem digitChar_is_digit (d : Nat) (h : d < 10) :
    isDigitCh (Nat.digitChar d) = true := by
  interval_cases d <;> decide

/-- Reading a rendered digit back gives the digit. -/
theorem charVal_digitChar (d : Nat) (h : d < 10) :
    charVal (Nat.digitChar d) = d := by
  interval_cases d <;> decide

/-- Digit characters are none of the separator, sign and whitespace
characters the loaders look for. -/
theorem digit_char_props (c : Char) (h : isDigitCh c = true) :
    c ≠ ',' ∧ c ≠ '\n' ∧ c.isWhitespace = false ∧ c ≠ '-' ∧ c ≠ '+' := by
  unfold isDigitCh at h
  rw [Bool.and_eq_true, decide_eq_true_eq, decide_eq_true_eq] at h
  refine ⟨?_, ?_, ?_, ?_, ?_⟩
  · rintro rfl; exact absurd h (by decide)
  · rintro rfl; exact absurd h (by decide)
  · cases hw : c.isWhitespace with
    | false => rfl
    | true =>
      exfalso
      have h4 : ((c = ' ' ∨ c = '\t') ∨ c = '\x0d') ∨ c = '\n' := by
        simpa [Char.isWhitespace] using hw
      rcases h4 with ((rfl | rfl) | rfl) | rfl <;> exact absurd h (by decide)
  · rintro rfl; exact absurd h (by decide)
  · rintro rfl; exact absurd h (by decide)

/-- The rendering loop of zero is empty at any fuel. -/
theorem natToCharsAux_zero (fuel : Nat) : natToCharsAux fuel 0 = [] := by
  cases fuel <;> rfl

/-- Appending one character to a digit string multiplies its value by ten
and adds the digit. -/
theorem digitsVal_append (xs : List Char) (c : Char) :
    digitsVal (xs ++ [c]) = digitsVal xs * 10 + charVal c := by
  unfold digitsVal
  rw [List.foldl_append]
  rfl

/-- Specification of the fuel-driven renderer: for a positive value within
fuel, the output is all digits, non-empty, and evaluates back to the
value. -/
theorem natToCharsAux_spec :
    ∀ (fuel n : Nat), 0 < n → n ≤ fuel →
      (∀ c ∈ natToCharsAux fuel n, isDigitCh c = true) ∧
        digitsVal (natToCharsAux fuel n) = n ∧ natToCharsAux fuel n ≠ [] := by
  intro fuel
  induction fuel with
  | zero => intro n h1 h2; omega
  | succ f ih =>
    intro n h1 h2
    have hren : natToCharsAux (f + 1) n = natToCharsAux f (n / 10) ++ [Nat.digitChar (n % 10)] := by
      cases n with
      | zero => omega
      | succ m => rfl
    have hd10 : n % 10 < 10 := Nat.mod_lt n (by omega)
    by_cases hsmall : n / 10 = 0
    · rw [hren, hsmall, natToCharsAux_zero]
      refine ⟨?_, ?_, by simp⟩
      · intro c hc
        simp only [List.nil_append, List.mem_singleton] at hc
        subst hc
        exact digitChar_is_digit _ hd10
      · simp only [List.nil_append]
        have hone : digitsVal [Nat.digitChar (n % 10)] =
            0 * 10 + charVal (Nat.digitChar (n % 10)) := rfl
        rw [hone, charVal_digitChar _ hd10]
        omega
    · have hpos : 0 < n / 10 := Nat.pos_of_ne_zero hsmall
      have hlt : n / 10 < n := Nat.div_lt_self h1 (by omega)
      obtain ⟨ihd, ihv, ihne⟩ := ih (n / 10) hpos (by omega)
      rw [hren]
      refine ⟨?_, ?_, by simp⟩
      · intro c hc
        rcases List.mem_append.mp hc with hc | hc
        · exact ihd c hc
        · rw [List.mem_singleton] at hc
          subst hc
          exact digitChar_is_digit _ hd10
      · rw [digitsVal_append, ihv, charVal_digitChar _ hd10]
        omega

/-- Specification of the decimal renderer: all digits, non-empty, value
preserved. -/
theorem natToChars_spec (n : Nat) :
    (∀ c ∈ natToChars n, isDigitCh c = true) ∧
      digitsVal (natToChars n) = n ∧ natToChars n ≠ [] := by
  by_cases h : n = 0
  · subst h
    refine ⟨?_, by decide, by decide⟩
    intro c hc
    have hz : natToChars 0 = ['0'] := rfl
    rw [hz, List.mem_singleton] at hc
    subst hc
    decide
  · rw [natToChars, if_neg h]
    exact natToCharsAux_spec n n (Nat.pos_of_ne_zero h) le_rfl

/-- Parsing back a rendered natural number recovers it. -/
theorem parseNatCore_natToChars (n : Nat) :
    parseNatCore (natToChars n) = some n := by
  obtain ⟨hd, hv, hne⟩ := natToChars_spec n
  unfold parseNatCore
  rw [if_pos ⟨hne, List.all_eq_true.mpr hd⟩, hv]

/-- Parsing back a rendered `i32` value recovers it. -/
theorem parseI32Chars_intToChars (p : Int) (h1 : -(2 : Int) ^ 31 ≤ p)
    (h2 : p < 2 ^ 31) : parseI32Chars (intToChars p) = some p := by
  unfold intToChars
  by_cases hn : p < 0
  · rw [if_pos hn]
    simp only [parseI32Chars]
    rw [if_pos trivial, parseNatCore_natToChars,
      Option.some_bind, if_pos (by omega : p.natAbs ≤ 2 ^ 31)]
    have hval : -((p.natAbs : Int)) = p := by omega
    rw [hval]
  · rw [if_neg hn]
    obtain ⟨hd, -, hne⟩ := natToChars_spec p.toNat
    rcases hcs : natToChars p.toNat with _ | ⟨c, rest⟩
    · exact absurd hcs hne
    · have hc : isDigitCh c = true := by
        apply hd
        rw [hcs]
        exact List.mem_cons_self c rest
      obtain ⟨-, -, -, hcm, hcp⟩ := digit_char_props c hc
      simp only [parseI32Chars, if_neg hcm, if_neg hcp]
      rw [← hcs, parseNatCore_natToChars, Option.some_bind]
      rw [if_pos (by omega : p.toNat < 2 ^ 31)]
      have : ((p.toNat : Int)) = p := by omega
      rw [this]

/-- Parsing back a rendered `usize` value below `2^64` recovers it. -/
theorem parseUsizeChars_natToChars (n : Nat) (h : n < 2 ^ 64) :
    parseUsizeChars (natToChars n) = some n := by
  obtain ⟨hd, -, hne⟩ := natToChars_spec n
  rcases hcs : natToChars n with _ | ⟨c, rest⟩
  · exact absurd hcs hne
  · have hc : isDigitCh c = true := by
      apply hd
      rw [hcs]
      exact List.mem_cons_self c rest
    obtain ⟨-, -, -, -, hcp⟩ := digit_char_props c hc
    simp only [parseUsizeChars, if_neg hcp]
    rw [← hcs, parseNatCore_natToChars, Option.some_bind]
    rw [if_pos h]

/-- Parsing back a rendered `bool` recovers it. -/
theorem parseBoolChars_boolChars (b : Bool) :
    parseBoolChars (boolChars b) = some b := by
  cases b <;> decide

/-- Rendered natural numbers contain only digits, hence no separators and
no whitespace. -/
theorem natToChars_sep_free (n : Nat) :
    ',' ∉ natToChars n ∧ '\n' ∉ natToChars n ∧
      ∀ c ∈ natToChars n, c.isWhitespace = false := by
  obtain ⟨hd, -, -⟩ := natToChars_spec n
  refine ⟨fun hm => ?_, fun hm => ?_, fun c hc => ?_⟩
  · exact (digit_char_props ',' (hd ',' hm)).1 rfl
  · exact (digit_char_props '\n' (hd '\n' hm)).2.1 rfl
  · exact (digit_char_props c (hd c hc)).2.2.1

/-- Rendered `i32` values contain no separators. -/
theorem intToChars_sep_free (p : Int) :
    ',' ∉ intToChars p ∧ '\n' ∉ intToChars p := by
  unfold intToChars
  by_cases hn : p < 0
  · rw [if_pos hn]
    constructor
    · intro hm
      rcases List.mem_cons.mp hm with h | h
      · exact absurd h (by decide)
      · exact (natToChars_sep_free _).1 h
    · intro hm
      rcases List.mem_cons.mp hm with h | h
      · exact absurd h (by decide)
      · exact (natToChars_sep_free _).2.1 h
  · rw [if_neg hn]
    exact ⟨(natToChars_sep_free _).1, (natToChars_sep_free _).2.1⟩

/-- Rendered booleans contain no separators. -/
theorem boolChars_sep_free (b : Bool) :
    ',' ∉ boolChars b ∧ '\n' ∉ boolChars b := by
  cases b <;> exact ⟨by decide, by decide⟩

/-- A character distinct from the head separator and absent from both
parts misses the whole joined list. -/
theorem not_mem_append_cons (c d : Char) (hcd : c ≠ d) (xs ys : List Char)
    (hx : c ∉ xs) (hy : c ∉ ys) : c ∉ xs ++ d :: ys := by
  intro hm
  rcases List.mem_append.mp hm with h | h
  · exact hx h
  · rcases List.mem_cons.mp h with h | h
    · exact hcd h
    · exact hy h

/-- A well-formed record line contains no newline. -/
theorem record_no_nl (s : Schedule) (h : good_schedule s) :
    '\n' ∉ record_of s := by
  obtain ⟨⟨-, h1n⟩, ⟨-, h2n⟩, ⟨-, h3n⟩, ⟨-, h4n⟩, -, -⟩ := h
  unfold record_of
  refine not_mem_append_cons _ _ (by decide) _ _ h1n ?_
  refine not_mem_append_cons _ _ (by decide) _ _ h2n ?_
  refine not_mem_append_cons _ _ (by decide) _ _ (intToChars_sep_free _).2 ?_
  refine not_mem_append_cons _ _ (by decide) _ _ h3n ?_
  exact not_mem_append_cons _ _ (by decide) _ _ h4n (boolChars_sep_free _).2

/-- Splitting a well-formed record on commas recovers the six fields. -/
theorem record_fields (s : Schedule) (h : good_schedule s) :
    splitOnChar ',' (record_of s) =
      [s.source_dir.data, s.dest_dir.data, intToChars s.period_hours,
        s.skip_file_exts_label.data, s.skip_folders_label.data,
        boolChars s.use_zip] := by
  obtain ⟨⟨h1c, -⟩, ⟨h2c, -⟩, ⟨h3c, -⟩, ⟨h4c, -⟩, -, -⟩ := h
  unfold record_of
  rw [splitOnChar_append _ _ _ h1c, splitOnChar_append _ _ _ h2c,
    splitOnChar_append _ _ _ (intToChars_sep_free _).1,
    splitOnChar_append _ _ _ h3c, splitOnChar_append _ _ _ h4c,
    splitOnChar_nomem _ _ (boolChars_sep_free _).1]

/-- `trim_end` leaves an append unchanged whenever its non-empty right
part is itself `trim_end`-stable. -/
theorem trimEndChars_append_right (xs ys : List Char) (hne : ys ≠ [])
    (hy : trimEndChars ys = ys) : trimEndChars (xs ++ ys) = xs ++ ys := by
  rcases hrev : ys.reverse with _ | ⟨c, rest⟩
  · exact absurd (by simpa using congrArg List.reverse hrev) hne
  · have hdrop : List.dropWhile Char.isWhitespace (c :: rest) = c :: rest := by
      have h1 : List.dropWhile Char.isWhitespace ys.reverse = ys.reverse := by
        have := congrArg List.reverse hy
        unfold trimEndChars at this
        simpa using this
      rw [hrev] at h1
      exact h1
    have hcw : c.isWhitespace = false := by
      cases hcw : c.isWhitespace with
      | false => rfl
      | true =>
        exfalso
        rw [List.dropWhile_cons, if_pos hcw] at hdrop
        have hlen := congrArg List.length hdrop
        have hle := (List.dropWhile_sublist (l := rest) Char.isWhitespace).length_le
        simp at hlen
        omega
    unfold trimEndChars
    have hr : (xs ++ ys).reverse = c :: (rest ++ xs.reverse) := by
      rw [List.reverse_append, hrev, List.cons_append]
    rw [hr, List.dropWhile_cons, hcw]
    simp only [Bool.false_eq_true, if_false]
    have : c :: (rest ++ xs.reverse) = (xs ++ ys).reverse := hr.symm
    rw [this, List.reverse_reverse]

/-- A record line ends in a `true`/`false` field, so `trim_end` leaves it
unchanged. -/
theorem trimEnd_record (s : Schedule) :
    trimEndChars (record_of s) = record_of s := by
  have hrec : record_of s =
      (s.source_dir.data ++ ',' :: (s.dest_dir.data ++ ',' ::
        (intToChars s.period_hours ++ ',' :: (s.skip_file_exts_label.data ++ ',' ::
          (s.skip_folders_label.data ++ [',']))))) ++ boolChars s.use_zip := by
    unfold record_of
    simp [List.append_assoc]
  rw [hrec]
  refine trimEndChars_append_right _ _ ?_ ?_
  · cases hz : s.use_zip <;> decide
  · cases hz : s.use_zip <;> decide

/-- Parsing a saved record line restores the schedule with `running`
false and `last_time` set to the load instant. -/
theorem parse_record_record_of (now : Int) (s : Schedule)
    (h : good_schedule s) :
    parse_record now (record_of s) = some (refreshed now s) := by
  obtain ⟨-, -, -, -, hr1, hr2⟩ := id h
  unfold parse_record
  rw [trimEnd_record, record_fields s h]
  rw [if_pos (by simp)]
  simp only [List.getD_cons_succ, List.getD_cons_zero]
  rw [parseI32Chars_intToChars _ hr1 hr2, parseBoolChars_boolChars]
  simp only [Option.getD_some]
  have hmk : ∀ t : String, String.mk t.data = t :=
    fun t => (str_eq_iff_data _ _).mpr rfl
  unfold Schedule.new refreshed
  rw [hmk, hmk, hmk, hmk]

/-- Splitting the record chunk of a saved file on newlines yields the
record lines followed by the empty line after the final newline. -/
theorem split_records (ss : List Schedule) (h : ∀ s ∈ ss, good_schedule s) :
    splitOnChar '\n' ((ss.map (fun s => record_of s ++ ['\n'])).flatten) =
      ss.map record_of ++ [[]] := by
  induction ss with
  | nil => rfl
  | cons s rest ih =>
    have hs := h s (List.mem_cons_self s rest)
    have hrest : ∀ t ∈ rest, good_schedule t :=
      fun t ht => h t (List.mem_cons_of_mem s ht)
    simp only [List.map_cons, List.flatten_cons]
    rw [List.append_assoc, List.singleton_append]
    rw [splitOnChar_append _ _ _ (record_no_nl s hs)]
    rw [ih hrest]
    rfl

/-- Reading back exactly as many record lines as were saved restores the
refreshed schedules, regardless of what follows the records. -/
theorem load_records_spec (now : Int) :
    ∀ (ss : List Schedule) (tail : List (List Char)),
      (∀ s ∈ ss, good_schedule s) →
      load_records now ss.length (ss.map record_of ++ tail) =
        ss.map (refreshed now) := by
  intro ss
  induction ss with
  | nil => intro tail _; rfl
  | cons s rest ih =>
    intro tail h
    have hs := h s (List.mem_cons_self s rest)
    have hrest : ∀ t ∈ rest, good_schedule t :=
      fun t ht => h t (List.mem_cons_of_mem s ht)
    simp only [List.map_cons, List.length_cons, List.cons_append]
    rw [load_records]
    simp only [List.headD_cons, List.tail_cons]
    rw [parse_record_record_of now s hs]
    rw [ih tail hrest]
    rfl

/-- Claim C9: saving a Job Collection whose string fields are comma- and
newline-free (and whose periods are `i32` values, as in the program) and
loading the file back reproduces the same jobs with the same fields in
the same order, each with `running = false` (and `last_time` set to the
load instant, as `Schedule::new` does on load). -/
theorem c9_save_load_roundtrip (ss : List Schedule) (now : Int)
    (h : ∀ s ∈ ss, good_schedule s) (hlen : ss.length < 2 ^ 64) :
    load_data (save_data ss) now = ss.map (refreshed now) := by
  have hlines : splitOnChar '\n' ("Count".data ++ '\n' ::
      (natToChars ss.length ++ '\n' ::
        (ss.map (fun s => record_of s ++ ['\n'])).flatten)) =
      "Count".data :: natToChars ss.length :: (ss.map record_of ++ [[]]) := by
    rw [splitOnChar_append _ _ _ (by decide : '\n' ∉ "Count".data)]
    rw [splitOnChar_append _ _ _ (natToChars_sep_free ss.length).2.1]
    rw [split_records ss h]
  unfold load_data save_data
  rw [hlines]
  simp only [List.getD_cons_succ, List.getD_cons_zero, List.drop_succ_cons,
    List.drop_zero]
  rw [trimChars_eq_self _ (natToChars_sep_free ss.length).2.2]
  rw [parseUsizeChars_natToChars _ hlen]
  simp only [Option.getD_some]
  exact load_records_spec now ss [[]] h

/-- Concrete schedule for the C9 witness, marked running to show the
loaded copy comes back idle. -/
def sched_c9 : Schedule :=
  { Schedule.new "/src" "/dst" 12 "*.log *.tmp" "node_modules target" true 0 with
    is_running := true }

/-- Witness for C9 at a concrete input: one well-formed running schedule
round-trips to the same fields with `running` false. -/
theorem c9_save_load_roundtrip_witness :
    (∀ s ∈ [sched_c9], good_schedule s)
      ∧ ([sched_c9] : List Schedule).length < 2 ^ 64
      ∧ load_data (save_data [sched_c9]) 77 = [refreshed 77 sched_c9]
      ∧ refreshed 77 sched_c9 =
          { sched_c9 with is_running := false, last_time := 77 } :=
  ⟨by decide, by decide,
    c9_save_load_roundtrip [sched_c9] 77 (by decide) (by decide), rfl⟩
